import Mathlib

/-!
Verification of the session-matching and duration-aggregation core of
CalculateWorkTimePy (`calculate_work_time.py`, with `parse_log_line` shared by
`calculate_work_time_gui.py`).

The embedding models:
* Python `dict` as an insertion-ordered association list (`SDict`): assignment
  replaces the value of an existing key in place, otherwise appends; `del`
  removes the entry; iteration follows insertion order.
* `defaultdict(lambda: 0)` totals via `addTime` (missing key behaves as 0).
* timestamps as integers (seconds); `datetime` subtraction
  `(a - b).total_seconds()` corresponds to integer subtraction of the
  second counts produced by `dtSecs`.
* the diagnostics strings of `missing_start_logs` as a `Diag` datatype carrying
  exactly the data interpolated into each message.
* `datetime.strptime(s, "%Y-%m-%d %H:%M:%S")` following CPython `_strptime`
  regex semantics (field widths, ranges, trailing-input check) followed by the
  `datetime` constructor's calendar validation.
-/

/-- Insertion-ordered string-keyed map, the model of a Python `dict`. -/
abbrev SDict (α : Type) := List (String × α)

/-- Lookup of the first binding of a key, the model of `d[k]` / `k in d`. -/
def dictLookup {α : Type} : SDict α → String → Option α
  | [], _ => none
  | (k', v) :: rest, k => if k' = k then some v else dictLookup rest k

/-- Assignment `d[k] = v` on a Python dict: replace the value in place if the
key is present, otherwise append the new binding at the end. -/
def dictInsert {α : Type} : SDict α → String → α → SDict α
  | [], k, v => [(k, v)]
  | (k', v') :: rest, k, v =>
      if k' = k then (k, v) :: rest else (k', v') :: dictInsert rest k v

/-- Deletion `del d[k]`: remove the binding of `k`. -/
def dictErase {α : Type} : SDict α → String → SDict α
  | [], _ => []
  | (k', v') :: rest, k => if k' = k then rest else (k', v') :: dictErase rest k

/-- The update `total_time[login] += duration` on `defaultdict(lambda: 0)`:
add to the existing value, or append `(login, duration)` if absent. -/
def addTime : SDict Int → String → Int → SDict Int
  | [], k, v => [(k, v)]
  | (k', v') :: rest, k, v =>
      if k' = k then (k', v' + v) :: rest else (k', v') :: addTime rest k v

/-- Reading a login's accumulated seconds, with the defaultdict default 0. -/
def lookupTotal (d : SDict Int) (k : String) : Int :=
  (dictLookup d k).getD 0

/-- A parsed log event `(login, action, timestamp, session_id)`; the timestamp
is the signed second count of the parsed `datetime`. -/
structure Event where
  login : String
  action : String
  timestamp : Int
  session_id : String
deriving Repr, DecidableEq

/-- The three diagnostics appended to `missing_start_logs`, carrying exactly
the data interpolated into each message string. -/
inductive Diag where
  /-- "Stop для {login} в {timestamp}: session_id {sid} принадлежит другому
  пользователю" -/
  | mismatch (login : String) (timestamp : Int) (session_id : String)
  /-- "Stop без Start для {login} в {timestamp}, session_id: {sid}" -/
  | stopWithoutStart (login : String) (timestamp : Int) (session_id : String)
  /-- "Start без Stop для {login} в {start_time}, session_id: {sid}" -/
  | startWithoutStop (login : String) (timestamp : Int) (session_id : String)
deriving Repr, DecidableEq

/-- True exactly on the finalization ("Start без Stop") diagnostic. -/
def Diag.isUnterminated : Diag → Bool
  | .startWithoutStop _ _ _ => true
  | _ => false

/-- The mutable state of one aggregation pass: `start_times` maps session ids
to the opening `(login, timestamp)`, `total_time` accumulates seconds per
login, `missing_start_logs` collects diagnostics in order. -/
structure AggState where
  start_times : SDict (String × Int)
  total_time : SDict Int
  missing_start_logs : List Diag
deriving Repr, DecidableEq

/-- The empty state built at the top of `calculate_work_time`. -/
def initState : AggState := ⟨[], [], []⟩

/-- The Python truthiness test `if target_login and login != target_login`:
an event is skipped when a non-`None`, non-empty target is set and the login
differs from it. -/
def skipsEvent (target : Option String) (login : String) : Bool :=
  match target with
  | none => false
  | some t => !(t == "") && !(login == t)

/-- The finalization guard `if not target_login or login == target_login`. -/
def includeAtFinal (target : Option String) (login : String) : Bool :=
  match target with
  | none => true
  | some t => (t == "") || (login == t)

/-- One iteration of the event loop of `calculate_work_time` (lines 44-62):
filter by login, then dispatch on the action. A `Start` overwrites the open
entry for its session id; a `Stop` either matches (accumulate the signed
duration and delete the entry), hits a login mismatch (diagnostic only), or is
an orphan (diagnostic only); any other action is ignored. -/
def stepEvent (target : Option String) (s : AggState) (e : Event) : AggState :=
  if skipsEvent target e.login then s
  else if e.action = "Start" then
    { s with start_times := dictInsert s.start_times e.session_id (e.login, e.timestamp) }
  else if e.action = "Stop" then
    match dictLookup s.start_times e.session_id with
    | some (start_login, start_time) =>
        if start_login = e.login then
          { s with
              total_time := addTime s.total_time e.login (e.timestamp - start_time),
              start_times := dictErase s.start_times e.session_id }
        else
          { s with missing_start_logs :=
              s.missing_start_logs ++ [Diag.mismatch e.login e.timestamp e.session_id] }
    | none =>
        { s with missing_start_logs :=
            s.missing_start_logs ++ [Diag.stopWithoutStart e.login e.timestamp e.session_id] }
  else s

/-- The state after folding the event loop over the whole parsed stream. -/
def runEvents (events : List Event) (target : Option String) : AggState :=
  events.foldl (stepEvent target) initState

/-- Finalization (lines 64-67): each entry still open, subject to the login
filter, becomes one "Start без Stop" diagnostic, in table iteration order. -/
def finalizeDiags (target : Option String) (entries : SDict (String × Int)) : List Diag :=
  entries.filterMap fun p =>
    if includeAtFinal target p.2.1 then
      some (Diag.startWithoutStop p.2.1 p.2.2 p.1)
    else none

/-- The aggregation core of `calculate_work_time` (lines 24-69), over the
already-parsed event stream: fold the event loop, then append the
finalization diagnostics and return the totals with the diagnostics list.
The open-session table is dropped from the result. -/
def calculate_work_time (events : List Event) (target : Option String) :
    SDict Int × List Diag :=
  let s := runEvents events target
  (s.total_time, s.missing_start_logs ++ finalizeDiags target s.start_times)

/-! ### The line parser -/

/-- Python `s.strip()` on a character list: remove leading and trailing
whitespace. -/
def trimChars (cs : List Char) : List Char :=
  ((cs.dropWhile Char.isWhitespace).reverse.dropWhile Char.isWhitespace).reverse

/-- Python `s.strip('"')` on a character list: remove every leading and
trailing quote character. -/
def stripQuoteChars (cs : List Char) : List Char :=
  ((cs.dropWhile (fun c => c = '"')).reverse.dropWhile (fun c => c = '"')).reverse

/-- Python `s.split(';')`: split on every semicolon, keeping empty pieces, so
the result always has one more piece than there are semicolons. -/
def splitSemis : List Char → List (List Char)
  | [] => [[]]
  | c :: rest =>
    match splitSemis rest with
    | [] => [[]]
    | p :: ps => if c = ';' then [] :: p :: ps else (c :: p) :: ps

/-- Line 14: strip the line, split on `;`, and strip whitespace then quotes
from each part. -/
def lineParts (line : String) : List String :=
  (splitSemis (trimChars line.toList)).map
    (fun p => String.mk (stripQuoteChars (trimChars p)))

/-- A naive `datetime` value as produced by `strptime` (no timezone). -/
structure PyDateTime where
  year : Nat
  month : Nat
  day : Nat
  hour : Nat
  minute : Nat
  second : Nat
deriving Repr, DecidableEq

/-- Split a character list into its maximal leading digit run and the rest. -/
def digitSpan (cs : List Char) : List Char × List Char :=
  (cs.takeWhile Char.isDigit, cs.dropWhile Char.isDigit)

/-- Numeric value of a digit run. -/
def natOfDigits (ds : List Char) : Nat :=
  ds.foldl (fun a c => 10 * a + (c.toNat - 48)) 0

/-- Gregorian leap-year test used by `datetime`. -/
def isLeap (y : Nat) : Bool :=
  y % 4 == 0 && (!(y % 100 == 0) || y % 400 == 0)

/-- Length of a month as validated by the `datetime` constructor. -/
def daysInMonth (y m : Nat) : Nat :=
  if m = 2 then (if isLeap y then 29 else 28)
  else if m = 4 ∨ m = 6 ∨ m = 9 ∨ m = 11 then 30
  else 31

/-- Model of `datetime.strptime(s, "%Y-%m-%d %H:%M:%S")`. Following CPython
`_strptime`: `%Y` is exactly four digits; `%m`, `%d`, `%H`, `%M`, `%S` are
one or two digits within their regex ranges (month 1-12, day 1-31 and nonzero,
hour 0-23, minute and second 0-59); a literal space in the format matches one
or more whitespace characters; the whole string must be consumed; finally the
`datetime` constructor requires year at least 1 and the day to exist in the
month. Any failure raises in Python and is modelled as `none`. -/
def strptimeYmdHMS (s : String) : Option PyDateTime :=
  let (yd, r1) := digitSpan s.toList
  if yd.length = 4 then
    match r1 with
    | '-' :: r2 =>
      let (md, r3) := digitSpan r2
      let m := natOfDigits md
      if (md.length = 1 ∨ md.length = 2) ∧ 1 ≤ m ∧ m ≤ 12 then
        match r3 with
        | '-' :: r4 =>
          let (dd, r5) := digitSpan r4
          let d := natOfDigits dd
          if (dd.length = 1 ∨ dd.length = 2) ∧ 1 ≤ d ∧ d ≤ 31 then
            let ws := r5.takeWhile Char.isWhitespace
            let r6 := r5.dropWhile Char.isWhitespace
            if ws.length ≥ 1 then
              let (hd, r7) := digitSpan r6
              let h := natOfDigits hd
              if (hd.length = 1 ∨ hd.length = 2) ∧ h ≤ 23 then
                match r7 with
                | ':' :: r8 =>
                  let (mind, r9) := digitSpan r8
                  let mi := natOfDigits mind
                  if (mind.length = 1 ∨ mind.length = 2) ∧ mi ≤ 59 then
                    match r9 with
                    | ':' :: r10 =>
                      let (sd, r11) := digitSpan r10
                      let sec := natOfDigits sd
                      if (sd.length = 1 ∨ sd.length = 2) ∧ sec ≤ 59 ∧
                          r11 = [] then
                        let y := natOfDigits yd
                        if 1 ≤ y ∧ d ≤ daysInMonth y m then
                          some ⟨y, m, d, h, mi, sec⟩
                        else none
                      else none
                    | _ => none
                  else none
                | _ => none
              else none
            else none
          else none
        | _ => none
      else none
    | _ => none
  else none

/-- Model of `parse_log_line` (lines 10-22): strip, split on `;`, strip
whitespace and quotes per part, require at least four fields, parse the third
as a timestamp; every failure path (including the exception from `strptime`)
returns `None`, and no diagnostic is ever recorded. -/
def parse_log_line (line : String) :
    Option (String × String × PyDateTime × String) :=
  match lineParts line with
  | login :: action :: tsStr :: sid :: _ =>
    match strptimeYmdHMS tsStr with
    | some ts => some (login, action, ts, sid)
    | none => none
  | _ => none

/-- Days of the proleptic Gregorian calendar before January 1 of a year,
as in CPython `datetime._days_before_year`. -/
def daysBeforeYear (y : Nat) : Nat :=
  365 * (y - 1) + (y - 1) / 4 - (y - 1) / 100 + (y - 1) / 400

/-- Days in a year before the first of a month. -/
def daysBeforeMonth (y m : Nat) : Nat :=
  (List.range (m - 1)).foldl (fun a i => a + daysInMonth y (i + 1)) 0

/-- Signed second count of a `datetime`; differences of these counts agree
with `(a - b).total_seconds()` on second-resolution datetimes. -/
def dtSecs (dt : PyDateTime) : Int :=
  ((((daysBeforeYear dt.year + daysBeforeMonth dt.year dt.month + dt.day) * 24
      + dt.hour) * 60 + dt.minute) * 60 + dt.second : Nat)

/-- One iteration of the reading loop of `calculate_work_time` (lines 34-62)
on a raw record: a line whose parse fails contributes nothing; otherwise the
parsed event is fed to the state machine. -/
def processLine (target : Option String) (s : AggState) (line : String) :
    AggState :=
  match parse_log_line line with
  | none => s
  | some (login, action, ts, sid) =>
      stepEvent target s ⟨login, action, dtSecs ts, sid⟩

/-! ### Specification-side definitions used to state the claims -/

/-- A stream consists only of cleanly matched Start/Stop pairs: every event is
a `Start` of a not-currently-open session id or a `Stop` of the open session
with the same session id and the same login, and no session is left open. -/
def cleanRun (o : SDict (String × Int)) : List Event → Bool
  | [] => o.isEmpty
  | e :: es =>
    if e.action = "Start" then
      (dictLookup o e.session_id).isNone &&
        cleanRun (dictInsert o e.session_id (e.login, e.timestamp)) es
    else if e.action = "Stop" then
      match dictLookup o e.session_id with
      | some (l, _) => (l == e.login) && cleanRun (dictErase o e.session_id) es
      | none => false
    else false

/-- The `(login, stop.timestamp - start.timestamp)` pairs of the successfully
matched Start/Stop pairs of a stream, in stop order. -/
def matchedPairs (o : SDict (String × Int)) : List Event → List (String × Int)
  | [] => []
  | e :: es =>
    if e.action = "Start" then
      matchedPairs (dictInsert o e.session_id (e.login, e.timestamp)) es
    else if e.action = "Stop" then
      match dictLookup o e.session_id with
      | some (l, t) =>
          if l = e.login then
            (e.login, e.timestamp - t) :: matchedPairs (dictErase o e.session_id) es
          else matchedPairs o es
      | none => matchedPairs o es
    else matchedPairs o es

/-- Sum of the durations of a pair list that are attributable to a login. -/
def sumFor : List (String × Int) → String → Int
  | [], _ => 0
  | (l, d) :: ps, l' => (if l' = l then d else 0) + sumFor ps l'

/-- A login's accumulated total after the first `n` events of the stream have
been processed. -/
def totalAt (target : Option String) (evs : List Event) (n : Nat) (l : String) : Int :=
  lookupTotal ((evs.take n).foldl (stepEvent target) initState).total_time l

/-! ### Helper lemmas about the dictionary model -/

theorem lookupTotal_addTime (d : SDict Int) (k k' : String) (v : Int) :
    lookupTotal (addTime d k v) k' = lookupTotal d k' + (if k' = k then v else 0) := by
  induction d with
  | nil =>
      simp only [addTime, lookupTotal, dictLookup]
      by_cases h : k = k'
      · subst h; simp
      · have h' : ¬ (k' = k) := fun hh => h hh.symm
        simp [h, h']
  | cons p rest ih =>
      obtain ⟨k0, v0⟩ := p
      simp only [addTime]
      by_cases h0 : k0 = k
      · subst h0
        by_cases h1 : k0 = k'
        · subst h1
          simp [lookupTotal, dictLookup]
        · have h1' : ¬ (k' = k0) := fun hh => h1 hh.symm
          simp [lookupTotal, dictLookup, h1, h1']
      · by_cases h1 : k0 = k'
        · subst h1
          have h2 : ¬ (k0 = k) := h0
          simp [lookupTotal, dictLookup, h2]
        · simp only [if_neg h0, lookupTotal, dictLookup, if_neg h1]
          exact ih

theorem dictLookup_mem {α : Type} (d : SDict α) (k : String) (v : α)
    (h : dictLookup d k = some v) : (k, v) ∈ d := by
  induction d with
  | nil => simp [dictLookup] at h
  | cons p rest ih =>
      obtain ⟨k0, v0⟩ := p
      by_cases h0 : k0 = k
      · subst h0
        simp [dictLookup] at h
        subst h
        exact List.mem_cons_self _ _
      · simp [dictLookup, h0] at h
        exact List.mem_cons_of_mem _ (ih h)

theorem mem_dictInsert {α : Type} (d : SDict α) (k : String) (v : α) (p : String × α)
    (hp : p ∈ dictInsert d k v) : p ∈ d ∨ p = (k, v) := by
  induction d with
  | nil => simp [dictInsert] at hp; right; exact hp
  | cons q rest ih =>
      obtain ⟨k0, v0⟩ := q
      by_cases h0 : k0 = k
      · simp only [dictInsert, if_pos h0] at hp
        rcases List.mem_cons.mp hp with h | h
        · right; exact h
        · left; exact List.mem_cons_of_mem _ h
      · simp only [dictInsert, if_neg h0] at hp
        rcases List.mem_cons.mp hp with h | h
        · left; exact h ▸ List.mem_cons_self _ _
        · rcases ih h with h' | h'
          · left; exact List.mem_cons_of_mem _ h'
          · right; exact h'

theorem mem_dictErase {α : Type} (d : SDict α) (k : String) (p : String × α)
    (hp : p ∈ dictErase d k) : p ∈ d := by
  induction d with
  | nil => simp [dictErase] at hp
  | cons q rest ih =>
      obtain ⟨k0, v0⟩ := q
      by_cases h0 : k0 = k
      · simp only [dictErase, if_pos h0] at hp
        exact List.mem_cons_of_mem _ hp
      · simp only [dictErase, if_neg h0] at hp
        rcases List.mem_cons.mp hp with h | h
        · exact h ▸ List.mem_cons_self _ _
        · exact List.mem_cons_of_mem _ (ih h)

/-! ### Claims about single transitions of the aggregator -/

/-- C3: for every successfully matched Start/Stop pair, the duration added to
the stopping login's total is exactly `stop.timestamp - start.timestamp`, with
no clamping; in particular, on an input whose Stop timestamp precedes its
matching Start, the negative duration is added as-is to the user's total. -/
theorem matched_stop_adds_exact_duration :
    (∀ (target : Option String) (s : AggState) (e : Event) (t0 : Int),
      skipsEvent target e.login = false →
      e.action = "Stop" →
      dictLookup s.start_times e.session_id = some (e.login, t0) →
      lookupTotal (stepEvent target s e).total_time e.login
        = lookupTotal s.total_time e.login + (e.timestamp - t0))
    ∧ calculate_work_time
        [⟨"dave", "Start", 1000, "s7"⟩, ⟨"dave", "Stop", 400, "s7"⟩] none
        = ([("dave", -600)], []) := by
  constructor
  · intro target s e t0 hskip hact hlook
    unfold stepEvent
    rw [hskip, hact, hlook]
    simp [lookupTotal_addTime]
  · decide

/-- Witness for C3, at a pair whose Stop (second 400) precedes its Start
(second 1000): the signed duration `400 - 1000` is added unclamped. -/
theorem matched_stop_adds_exact_duration_witness :
    lookupTotal (stepEvent none ⟨[("s7", ("dave", 1000))], [], []⟩
        ⟨"dave", "Stop", 400, "s7"⟩).total_time "dave"
      = lookupTotal (AggState.mk [("s7", ("dave", 1000))] [] []).total_time "dave"
        + (400 - 1000) :=
  matched_stop_adds_exact_duration.1 none ⟨[("s7", ("dave", 1000))], [], []⟩
    ⟨"dave", "Stop", 400, "s7"⟩ 1000 (by decide) rfl (by decide)

/-- C5: a Stop whose session id is open but whose login differs from the
stored opening login appends exactly one mismatch diagnostic and changes
nothing else: the open entry stays (so a later correctly-attributed Stop can
still match it) and every total is unchanged. -/
theorem mismatched_stop_appends_one_diag (target : Option String) (s : AggState)
    (e : Event) (l0 : String) (t0 : Int)
    (hskip : skipsEvent target e.login = false)
    (hact : e.action = "Stop")
    (hlook : dictLookup s.start_times e.session_id = some (l0, t0))
    (hne : l0 ≠ e.login) :
    stepEvent target s e =
      { s with missing_start_logs :=
          s.missing_start_logs ++ [Diag.mismatch e.login e.timestamp e.session_id] } := by
  unfold stepEvent
  rw [hskip, hact, hlook]
  simp [hne]

/-- Witness for C5: a Stop by `carol` against a session opened by `bob`. -/
theorem mismatched_stop_appends_one_diag_witness :
    stepEvent none ⟨[("s1", ("bob", 100))], [], []⟩ ⟨"carol", "Stop", 200, "s1"⟩ =
      { AggState.mk [("s1", ("bob", 100))] [] [] with missing_start_logs :=
          [] ++ [Diag.mismatch "carol" 200 "s1"] } :=
  mismatched_stop_appends_one_diag none ⟨[("s1", ("bob", 100))], [], []⟩
    ⟨"carol", "Stop", 200, "s1"⟩ "bob" 100 (by decide) rfl (by decide) (by decide)

/-- C6: a Stop whose session id has no open entry appends exactly one orphan
("Stop без Start") diagnostic and changes nothing else: totals and the entire
open-session table are untouched. -/
theorem orphan_stop_appends_one_diag (target : Option String) (s : AggState)
    (e : Event)
    (hskip : skipsEvent target e.login = false)
    (hact : e.action = "Stop")
    (hlook : dictLookup s.start_times e.session_id = none) :
    stepEvent target s e =
      { s with missing_start_logs :=
          s.missing_start_logs ++ [Diag.stopWithoutStart e.login e.timestamp e.session_id] } := by
  unfold stepEvent
  rw [hskip, hact, hlook]
  simp

/-- Witness for C6: a Stop with no prior Start for its session id. -/
theorem orphan_stop_appends_one_diag_witness :
    stepEvent none ⟨[], [("bob", 7)], []⟩ ⟨"bob", "Stop", 300, "s2"⟩ =
      { AggState.mk [] [("bob", 7)] [] with missing_start_logs :=
          [] ++ [Diag.stopWithoutStart "bob" 300 "s2"] } :=
  orphan_stop_appends_one_diag none ⟨[], [("bob", 7)], []⟩
    ⟨"bob", "Stop", 300, "s2"⟩ (by decide) rfl (by decide)

/-- C7: a Start unconditionally overwrites the open entry for its session id
with `(login, timestamp)` and emits no diagnostic; consequently after
Start, Start (same session id, no intervening Stop), a matching Stop computes
its duration against the second Start only, and the first contributes nothing
to any total or diagnostic. -/
theorem start_overwrites_silently :
    (∀ (target : Option String) (s : AggState) (e : Event),
      skipsEvent target e.login = false →
      e.action = "Start" →
      stepEvent target s e =
        { s with start_times :=
            dictInsert s.start_times e.session_id (e.login, e.timestamp) })
    ∧ (∀ (l sid : String) (t1 t2 t3 : Int),
      calculate_work_time
        [⟨l, "Start", t1, sid⟩, ⟨l, "Start", t2, sid⟩, ⟨l, "Stop", t3, sid⟩] none
        = ([(l, t3 - t2)], [])) := by
  constructor
  · intro target s e hskip hact
    unfold stepEvent
    rw [hskip, hact]
    simp
  · intro l sid t1 t2 t3
    simp [calculate_work_time, runEvents, initState, stepEvent, skipsEvent,
      dictInsert, dictLookup, dictErase, addTime, finalizeDiags]

/-- Witness for C7: a Start applied to the empty state. -/
theorem start_overwrites_silently_witness :
    stepEvent none initState ⟨"erin", "Start", 50, "s9"⟩ =
      { initState with
          start_times := dictInsert initState.start_times "s9" ("erin", 50) } :=
  start_overwrites_silently.1 none initState ⟨"erin", "Start", 50, "s9"⟩
    (by decide) rfl

/-! ### Shared unfolding lemmas for single transitions -/

theorem stepEvent_skipped (target : Option String) (s : AggState) (e : Event)
    (h : skipsEvent target e.login = true) : stepEvent target s e = s := by
  unfold stepEvent
  rw [h]
  simp

theorem stepEvent_start (target : Option String) (s : AggState) (e : Event)
    (h1 : skipsEvent target e.login = false) (h2 : e.action = "Start") :
    stepEvent target s e =
      { s with start_times :=
          dictInsert s.start_times e.session_id (e.login, e.timestamp) } := by
  unfold stepEvent
  rw [h1, h2]
  simp

theorem stepEvent_stop_match (target : Option String) (s : AggState) (e : Event)
    (t0 : Int) (h1 : skipsEvent target e.login = false) (h2 : e.action = "Stop")
    (h3 : dictLookup s.start_times e.session_id = some (e.login, t0)) :
    stepEvent target s e =
      { s with
          total_time := addTime s.total_time e.login (e.timestamp - t0),
          start_times := dictErase s.start_times e.session_id } := by
  unfold stepEvent
  rw [h1, h2, h3]
  simp

theorem stepEvent_stop_mismatch (target : Option String) (s : AggState) (e : Event)
    (l0 : String) (t0 : Int) (h1 : skipsEvent target e.login = false)
    (h2 : e.action = "Stop")
    (h3 : dictLookup s.start_times e.session_id = some (l0, t0))
    (h4 : l0 ≠ e.login) :
    stepEvent target s e =
      { s with missing_start_logs :=
          s.missing_start_logs ++ [Diag.mismatch e.login e.timestamp e.session_id] } := by
  unfold stepEvent
  rw [h1, h2, h3]
  simp [h4]

theorem stepEvent_stop_orphan (target : Option String) (s : AggState) (e : Event)
    (h1 : skipsEvent target e.login = false) (h2 : e.action = "Stop")
    (h3 : dictLookup s.start_times e.session_id = none) :
    stepEvent target s e =
      { s with missing_start_logs :=
          s.missing_start_logs ++ [Diag.stopWithoutStart e.login e.timestamp e.session_id] } := by
  unfold stepEvent
  rw [h1, h2, h3]
  simp

theorem stepEvent_other (target : Option String) (s : AggState) (e : Event)
    (h2 : ¬ e.action = "Start") (h3 : ¬ e.action = "Stop") :
    stepEvent target s e = s := by
  unfold stepEvent
  by_cases h1 : skipsEvent target e.login
  · rw [h1]; simp
  · simp only [Bool.not_eq_true] at h1
    rw [h1]
    simp [h2, h3]

/-! ### Counting lemmas for the finalization claim -/

theorem step_countP_unterminated (target : Option String) (s : AggState) (e : Event) :
    ((stepEvent target s e).missing_start_logs).countP Diag.isUnterminated
      = (s.missing_start_logs).countP Diag.isUnterminated := by
  by_cases h1 : skipsEvent target e.login
  · rw [stepEvent_skipped target s e h1]
  · simp only [Bool.not_eq_true] at h1
    by_cases h2 : e.action = "Start"
    · rw [stepEvent_start target s e h1 h2]
    · by_cases h3 : e.action = "Stop"
      · rcases hL : dictLookup s.start_times e.session_id with _ | ⟨l0, t0⟩
        · rw [stepEvent_stop_orphan target s e h1 h3 hL]
          simp [List.countP_append, Diag.isUnterminated]
        · by_cases h4 : l0 = e.login
          · subst h4
            rw [stepEvent_stop_match target s e t0 h1 h3 hL]
          · rw [stepEvent_stop_mismatch target s e l0 t0 h1 h3 hL h4]
            simp [List.countP_append, Diag.isUnterminated]
      · rw [stepEvent_other target s e h2 h3]

theorem fold_countP_unterminated (target : Option String) (xs : List Event)
    (s : AggState) :
    ((xs.foldl (stepEvent target) s).missing_start_logs).countP Diag.isUnterminated
      = (s.missing_start_logs).countP Diag.isUnterminated := by
  induction xs generalizing s with
  | nil => rfl
  | cons x xs ih => rw [List.foldl_cons, ih, step_countP_unterminated]

theorem countP_finalizeDiags (target : Option String) (st : SDict (String × Int)) :
    (finalizeDiags target st).countP Diag.isUnterminated
      = st.countP (fun p => includeAtFinal target p.2.1) := by
  induction st with
  | nil => rfl
  | cons p rest ih =>
      simp only [finalizeDiags, List.filterMap_cons] at ih ⊢
      by_cases h : includeAtFinal target p.2.1
      · simp [h, List.countP_cons, Diag.isUnterminated, ih]
      · simp only [Bool.not_eq_true] at h
        simp [h, List.countP_cons, ih]

/-- C4: after the stream ends, the diagnostics returned by the aggregator are
the pass diagnostics followed by exactly one "Start без Stop" diagnostic per
entry still open (subject to the login filter), each naming that entry's
login, start timestamp and session id; the pass itself never emits such a
diagnostic, so their count in the output equals the number of open entries
passing the filter, and no open entry survives into the returned result. -/
theorem finalization_unterminated_diags (evs : List Event) (target : Option String) :
    (calculate_work_time evs target).2
      = (runEvents evs target).missing_start_logs
        ++ ((runEvents evs target).start_times.filterMap fun p =>
            if includeAtFinal target p.2.1 then
              some (Diag.startWithoutStop p.2.1 p.2.2 p.1)
            else none)
    ∧ ((runEvents evs target).missing_start_logs).countP Diag.isUnterminated = 0
    ∧ ((calculate_work_time evs target).2).countP Diag.isUnterminated
      = ((runEvents evs target).start_times).countP
          (fun p => includeAtFinal target p.2.1) := by
  have hz : ((runEvents evs target).missing_start_logs).countP Diag.isUnterminated = 0 :=
    fold_countP_unterminated target evs initState
  refine ⟨rfl, hz, ?_⟩
  show ((runEvents evs target).missing_start_logs
      ++ finalizeDiags target (runEvents evs target).start_times).countP
        Diag.isUnterminated = _
  rw [List.countP_append, hz, countP_finalizeDiags]
  exact Nat.zero_add _

/-! ### The clean-input correctness lemma -/

theorem clean_fold (evs : List Event) :
    ∀ s : AggState, cleanRun s.start_times evs = true →
      (evs.foldl (stepEvent none) s).missing_start_logs = s.missing_start_logs
      ∧ (evs.foldl (stepEvent none) s).start_times = []
      ∧ ∀ l, lookupTotal (evs.foldl (stepEvent none) s).total_time l
          = lookupTotal s.total_time l
            + sumFor (matchedPairs s.start_times evs) l := by
  induction evs with
  | nil =>
      intro s h
      rw [cleanRun] at h
      rw [List.isEmpty_iff] at h
      exact ⟨rfl, h, fun l => by simp [matchedPairs, sumFor]⟩
  | cons e es ih =>
      intro s h
      have hskip : skipsEvent none e.login = false := rfl
      rw [cleanRun] at h
      by_cases hA : e.action = "Start"
      · rw [if_pos hA, Bool.and_eq_true] at h
        obtain ⟨-, hclean⟩ := h
        rw [List.foldl_cons, stepEvent_start none s e hskip hA]
        obtain ⟨hm, hst, htot⟩ := ih
          { s with
              start_times := dictInsert s.start_times e.session_id (e.login, e.timestamp) }
          hclean
        refine ⟨hm, hst, fun l => ?_⟩
        rw [htot l]
        simp only [matchedPairs, if_pos hA]
      · rw [if_neg hA] at h
        by_cases hS : e.action = "Stop"
        · rw [if_pos hS] at h
          rcases hL : dictLookup s.start_times e.session_id with _ | ⟨l0, t0⟩
          · rw [hL] at h
            exact absurd h (by simp)
          · rw [hL, Bool.and_eq_true, beq_iff_eq] at h
            obtain ⟨hlog, hclean⟩ := h
            subst hlog
            rw [List.foldl_cons, stepEvent_stop_match none s e t0 hskip hS hL]
            obtain ⟨hm, hst, htot⟩ := ih { s with
              total_time := addTime s.total_time e.login (e.timestamp - t0),
              start_times := dictErase s.start_times e.session_id } hclean
            refine ⟨hm, hst, fun l => ?_⟩
            rw [htot l]
            simp only [matchedPairs, if_neg hA, if_pos hS, hL, if_pos rfl]
            simp only [sumFor]
            rw [lookupTotal_addTime]
            ring
        · rw [if_neg hS] at h
          exact absurd h (by simp)

/-- C1: on an input consisting only of cleanly matched Start/Stop pairs (each
Stop matches the open session of the same session id and the same login, and
nothing stays open), `calculate_work_time` returns, for every login, exactly
the sum of `stop - start` durations of the pairs attributable to that login,
and an empty diagnostics list. -/
theorem clean_input_totals_eq_pair_sums (evs : List Event)
    (h : cleanRun [] evs = true) :
    (calculate_work_time evs none).2 = []
    ∧ ∀ l, lookupTotal (calculate_work_time evs none).1 l
        = sumFor (matchedPairs [] evs) l := by
  obtain ⟨hm, hst, htot⟩ := clean_fold evs initState h
  constructor
  · show (runEvents evs none).missing_start_logs
        ++ finalizeDiags none (runEvents evs none).start_times = []
    rw [show runEvents evs none = evs.foldl (stepEvent none) initState from rfl,
      hm, hst]
    rfl
  · intro l
    show lookupTotal (runEvents evs none).total_time l = _
    rw [show runEvents evs none = evs.foldl (stepEvent none) initState from rfl,
      htot l]
    simp [initState, lookupTotal, dictLookup]

/-- Witness for C1: two interleaved cleanly matched sessions of two users. -/
theorem clean_input_totals_eq_pair_sums_witness :
    (calculate_work_time
        [⟨"alice", "Start", 100, "a1"⟩, ⟨"bob", "Start", 150, "b1"⟩,
         ⟨"alice", "Stop", 250, "a1"⟩, ⟨"bob", "Stop", 400, "b1"⟩] none).2 = []
    ∧ lookupTotal (calculate_work_time
        [⟨"alice", "Start", 100, "a1"⟩, ⟨"bob", "Start", 150, "b1"⟩,
         ⟨"alice", "Stop", 250, "a1"⟩, ⟨"bob", "Stop", 400, "b1"⟩] none).1 "alice"
      = sumFor (matchedPairs []
          [⟨"alice", "Start", 100, "a1"⟩, ⟨"bob", "Start", 150, "b1"⟩,
           ⟨"alice", "Stop", 250, "a1"⟩, ⟨"bob", "Stop", 400, "b1"⟩]) "alice" :=
  ⟨(clean_input_totals_eq_pair_sums
      [⟨"alice", "Start", 100, "a1"⟩, ⟨"bob", "Start", 150, "b1"⟩,
       ⟨"alice", "Stop", 250, "a1"⟩, ⟨"bob", "Stop", 400, "b1"⟩] (by decide)).1,
   (clean_input_totals_eq_pair_sums
      [⟨"alice", "Start", 100, "a1"⟩, ⟨"bob", "Start", 150, "b1"⟩,
       ⟨"alice", "Stop", 250, "a1"⟩, ⟨"bob", "Stop", 400, "b1"⟩] (by decide)).2 "alice"⟩

/-! ### Parser claims -/

theorem parse_eq_of_lineParts (line : String) (l a tstr sid : String)
    (rest : List String) (hp : lineParts line = l :: a :: tstr :: sid :: rest) :
    parse_log_line line
      = match strptimeYmdHMS tstr with
        | some ts => some (l, a, ts, sid)
        | none => none := by
  unfold parse_log_line
  rw [hp]

/-- C9: a raw record that splits into fewer than four fields (after trimming
whitespace and quotes) yields no event and no diagnostic — the record is
invisible to the aggregator; likewise a record whose third field fails the
`YYYY-MM-DD HH:MM:SS` timestamp parse yields no event. -/
theorem short_or_bad_timestamp_line_rejected (line : String)
    (target : Option String) (s : AggState) :
    ((lineParts line).length < 4 →
      parse_log_line line = none ∧ processLine target s line = s)
    ∧ (∀ l a tstr rest, lineParts line = l :: a :: tstr :: rest →
        strptimeYmdHMS tstr = none → parse_log_line line = none) := by
  constructor
  · intro hlen
    have hnone : parse_log_line line = none := by
      unfold parse_log_line
      rcases hp : lineParts line with _ | ⟨l1, _ | ⟨l2, _ | ⟨l3, _ | ⟨l4, rest⟩⟩⟩⟩
      · rfl
      · rfl
      · rfl
      · rfl
      · exfalso
        rw [hp] at hlen
        simp at hlen
        omega
    refine ⟨hnone, ?_⟩
    unfold processLine
    rw [hnone]
  · intro l a tstr rest hp hts
    rcases rest with _ | ⟨sid, rest2⟩
    · unfold parse_log_line
      rw [hp]
    · rw [parse_eq_of_lineParts line l a tstr sid rest2 hp, hts]

/-- Witness for C9: a two-field record, and a four-field record whose third
field has month 13. -/
theorem short_or_bad_timestamp_line_rejected_witness :
    (parse_log_line "x;y" = none ∧ processLine none initState "x;y" = initState)
    ∧ parse_log_line "a;b;2024-13-01 09:00:00;s1" = none :=
  ⟨(short_or_bad_timestamp_line_rejected "x;y" none initState).1 (by decide),
   (short_or_bad_timestamp_line_rejected "a;b;2024-13-01 09:00:00;s1" none
      initState).2 "a" "b" "2024-13-01 09:00:00" ["s1"] (by decide) (by decide)⟩

/-- C10: `parse_log_line` is total: on every input string it returns either
`none` or a four-tuple taken positionally from the first four split fields
with the third successfully parsed as a timestamp; no other outcome exists. -/
theorem parse_log_line_total (line : String) :
    parse_log_line line = none
    ∨ ∃ l a tstr sid rest dt,
        lineParts line = l :: a :: tstr :: sid :: rest
        ∧ strptimeYmdHMS tstr = some dt
        ∧ parse_log_line line = some (l, a, dt, sid) := by
  rcases hp : lineParts line with _ | ⟨l1, _ | ⟨l2, _ | ⟨l3, _ | ⟨l4, rest⟩⟩⟩⟩
  · left; unfold parse_log_line; rw [hp]
  · left; unfold parse_log_line; rw [hp]
  · left; unfold parse_log_line; rw [hp]
  · left; unfold parse_log_line; rw [hp]
  · rcases ht : strptimeYmdHMS l3 with _ | dt
    · left
      rw [parse_eq_of_lineParts line l1 l2 l3 l4 rest hp, ht]
    · right
      exact ⟨l1, l2, l3, l4, rest, dt, rfl, ht,
        by rw [parse_eq_of_lineParts line l1 l2 l3 l4 rest hp, ht]⟩

/-! ### Monotonicity infrastructure for chronologically ordered streams -/

theorem step_start_times_mem (target : Option String) (s : AggState) (e : Event)
    (p : String × String × Int) (hp : p ∈ (stepEvent target s e).start_times) :
    p ∈ s.start_times ∨ p = (e.session_id, e.login, e.timestamp) := by
  by_cases h1 : skipsEvent target e.login
  · rw [stepEvent_skipped target s e h1] at hp
    exact Or.inl hp
  · simp only [Bool.not_eq_true] at h1
    by_cases h2 : e.action = "Start"
    · rw [stepEvent_start target s e h1 h2] at hp
      exact mem_dictInsert _ _ _ _ hp
    · by_cases h3 : e.action = "Stop"
      · rcases hL : dictLookup s.start_times e.session_id with _ | ⟨l0, t0⟩
        · rw [stepEvent_stop_orphan target s e h1 h3 hL] at hp
          exact Or.inl hp
        · by_cases h4 : l0 = e.login
          · subst h4
            rw [stepEvent_stop_match target s e t0 h1 h3 hL] at hp
            exact Or.inl (mem_dictErase _ _ _ hp)
          · rw [stepEvent_stop_mismatch target s e l0 t0 h1 h3 hL h4] at hp
            exact Or.inl hp
      · rw [stepEvent_other target s e h2 h3] at hp
        exact Or.inl hp

theorem step_total_mono (target : Option String) (s : AggState) (e : Event)
    (hb : ∀ p ∈ s.start_times, p.2.2 ≤ e.timestamp) (l : String) :
    lookupTotal s.total_time l ≤ lookupTotal (stepEvent target s e).total_time l := by
  by_cases h1 : skipsEvent target e.login
  · rw [stepEvent_skipped target s e h1]
  · simp only [Bool.not_eq_true] at h1
    by_cases h2 : e.action = "Start"
    · rw [stepEvent_start target s e h1 h2]
    · by_cases h3 : e.action = "Stop"
      · rcases hL : dictLookup s.start_times e.session_id with _ | ⟨l0, t0⟩
        · rw [stepEvent_stop_orphan target s e h1 h3 hL]
        · by_cases h4 : l0 = e.login
          · subst h4
            rw [stepEvent_stop_match target s e t0 h1 h3 hL]
            show lookupTotal s.total_time l
              ≤ lookupTotal (addTime s.total_time e.login (e.timestamp - t0)) l
            rw [lookupTotal_addTime]
            have ht : t0 ≤ e.timestamp :=
              hb (e.session_id, e.login, t0) (dictLookup_mem _ _ _ hL)
            by_cases hl : l = e.login
            · simp [hl]; omega
            · simp [hl]
          · rw [stepEvent_stop_mismatch target s e l0 t0 h1 h3 hL h4]
      · rw [stepEvent_other target s e h2 h3]

theorem fold_start_times_bound (target : Option String) (xs : List Event)
    (s : AggState) (b : Int) (hs : ∀ p ∈ s.start_times, p.2.2 ≤ b)
    (hx : ∀ e ∈ xs, e.timestamp ≤ b) :
    ∀ p ∈ ((xs.foldl (stepEvent target) s).start_times), p.2.2 ≤ b := by
  induction xs generalizing s with
  | nil => exact hs
  | cons x xs ih =>
      intro p hp
      refine ih (stepEvent target s x) ?_
        (fun e he => hx e (List.mem_cons_of_mem _ he)) p hp
      intro q hq
      rcases step_start_times_mem target s x q hq with h | h
      · exact hs q h
      · rw [h]
        exact hx x (List.mem_cons_self _ _)

/-- C2 counterexample: a matched pair whose Stop (second 200) precedes its
Start (second 500) drives frank's total from 0 down to -300, so the totals
table holds a negative value and processing an event decreased a total. -/
theorem totals_negative_counterexample :
    lookupTotal (runEvents [⟨"frank", "Start", 500, "s3"⟩] none).total_time "frank" = 0
    ∧ lookupTotal (runEvents [⟨"frank", "Start", 500, "s3"⟩,
        ⟨"frank", "Stop", 200, "s3"⟩] none).total_time "frank" = -300
    ∧ calculate_work_time [⟨"frank", "Start", 500, "s3"⟩,
        ⟨"frank", "Stop", 200, "s3"⟩] none = ([("frank", -300)], [])
    ∧ (-300 : Int) < 0 := by decide

/-- C2 amended: when the event stream is chronologically ordered (timestamps
non-decreasing along the stream), every accumulated total is non-negative at
every point of the pass and processing each successive event never decreases
any login's total. (Unordered streams can violate both: see the
counterexample with a Stop timestamped before its Start.) -/
theorem sorted_totals_nonneg_monotone (target : Option String) (evs : List Event)
    (hsort : evs.Pairwise (fun a b => a.timestamp ≤ b.timestamp)) :
    ∀ n l, 0 ≤ totalAt target evs n l
      ∧ totalAt target evs n l ≤ totalAt target evs (n + 1) l := by
  have mono : ∀ n l, totalAt target evs n l ≤ totalAt target evs (n + 1) l := by
    intro n l
    unfold totalAt
    rcases hg : evs[n]? with _ | e
    · rw [List.take_succ, hg]
      simp
    · rw [List.take_succ, hg]
      simp only [Option.toList_some]
      rw [List.foldl_append]
      simp only [List.foldl_cons, List.foldl_nil]
      apply step_total_mono
      have hsub : (evs.take (n + 1)).Pairwise (fun a b => a.timestamp ≤ b.timestamp) :=
        hsort.sublist (List.take_sublist (n + 1) evs)
      rw [List.take_succ, hg] at hsub
      simp only [Option.toList_some] at hsub
      rw [List.pairwise_append] at hsub
      obtain ⟨-, -, hcross⟩ := hsub
      apply fold_start_times_bound
      · intro p hp
        simp [initState] at hp
      · intro x hx
        exact hcross x hx e (by simp)
  have nonneg : ∀ n l, 0 ≤ totalAt target evs n l := by
    intro n l
    induction n with
    | zero => simp [totalAt, initState, lookupTotal, dictLookup]
    | succ k ihk => exact le_trans ihk (mono k l)
  exact fun n l => ⟨nonneg n l, mono n l⟩

/-- Witness for the amended C2, on a chronologically ordered stream. -/
theorem sorted_totals_nonneg_monotone_witness :
    0 ≤ totalAt none [⟨"gail", "Start", 10, "s4"⟩, ⟨"gail", "Stop", 60, "s4"⟩] 1 "gail"
    ∧ totalAt none [⟨"gail", "Start", 10, "s4"⟩, ⟨"gail", "Stop", 60, "s4"⟩] 1 "gail"
      ≤ totalAt none [⟨"gail", "Start", 10, "s4"⟩, ⟨"gail", "Stop", 60, "s4"⟩] 2 "gail" :=
  sorted_totals_nonneg_monotone none
    [⟨"gail", "Start", 10, "s4"⟩, ⟨"gail", "Stop", 60, "s4"⟩] (by decide) 1 "gail"

/-! ### The login filter commutes with pre-filtering the stream -/

theorem stepEvent_target_irrelevant (target : Option String) (s : AggState)
    (e : Event) (h : skipsEvent target e.login = false) :
    stepEvent target s e = stepEvent none s e := by
  unfold stepEvent
  rw [h]
  simp [skipsEvent]

theorem fold_filter_eq (t : String) (ht : t ≠ "") (xs : List Event) :
    ∀ s : AggState, (∀ p ∈ s.start_times, p.2.1 = t) →
      (xs.foldl (stepEvent (some t)) s
        = (xs.filter (fun e => e.login == t)).foldl (stepEvent none) s)
      ∧ (∀ p ∈ (xs.foldl (stepEvent (some t)) s).start_times, p.2.1 = t) := by
  induction xs with
  | nil => exact fun s hs => ⟨rfl, hs⟩
  | cons x xs ih =>
      intro s hs
      by_cases hx : x.login = t
      · have hfil : (x :: xs).filter (fun e => e.login == t)
            = x :: xs.filter (fun e => e.login == t) := by
          simp [List.filter_cons, hx]
        have hskip : skipsEvent (some t) x.login = false := by
          simp [skipsEvent, hx]
        have hstep : stepEvent (some t) s x = stepEvent none s x :=
          stepEvent_target_irrelevant (some t) s x hskip
        have hinv : ∀ p ∈ (stepEvent (some t) s x).start_times, p.2.1 = t := by
          intro p hp
          rcases step_start_times_mem (some t) s x p hp with h | h
          · exact hs p h
          · rw [h]
            exact hx
        rw [hfil, List.foldl_cons, List.foldl_cons, ← hstep]
        exact ⟨(ih (stepEvent (some t) s x) hinv).1, (ih _ hinv).2⟩
      · have hfil : (x :: xs).filter (fun e => e.login == t)
            = xs.filter (fun e => e.login == t) := by
          simp [List.filter_cons, hx]
        have hskip : skipsEvent (some t) x.login = true := by
          simp [skipsEvent, hx, ht]
        rw [hfil, List.foldl_cons, stepEvent_skipped _ _ _ hskip]
        exact ih s hs

theorem finalizeDiags_all_target (t : String) (st : SDict (String × Int))
    (hst : ∀ p ∈ st, p.2.1 = t) :
    finalizeDiags (some t) st = finalizeDiags none st := by
  induction st with
  | nil => rfl
  | cons p rest ih =>
      have hp : p.2.1 = t := hst p (List.mem_cons_self _ _)
      have h1 : includeAtFinal (some t) p.2.1 = true := by
        simp [includeAtFinal, hp]
      have h2 : includeAtFinal none p.2.1 = true := rfl
      simp only [finalizeDiags] at ih ⊢
      simp [List.filterMap_cons, h1, h2,
        ih (fun q hq => hst q (List.mem_cons_of_mem _ hq))]

/-- C8: with a non-empty target login, every event of a different login is
skipped before reaching the state machine, every open-session entry ever
held belongs to the target, and the filtered aggregation equals the
aggregation of the subsequence of events whose login is the target. -/
theorem filter_prematch (t : String) (evs : List Event) (ht : t ≠ "") :
    calculate_work_time evs (some t)
      = calculate_work_time (evs.filter (fun e => e.login == t)) none
    ∧ (∀ n p, p ∈ ((evs.take n).foldl (stepEvent (some t)) initState).start_times
        → p.2.1 = t)
    ∧ (∀ s e, e.login ≠ t → stepEvent (some t) s e = s) := by
  have hinit : ∀ p ∈ (initState).start_times, p.2.1 = t := by
    simp [initState]
  refine ⟨?_, ?_, ?_⟩
  · have h := fold_filter_eq t ht evs initState hinit
    have hX : ∀ p ∈ ((evs.filter (fun e => e.login == t)).foldl
        (stepEvent none) initState).start_times, p.2.1 = t := by
      rw [← h.1]
      exact h.2
    show (_, (runEvents evs (some t)).missing_start_logs
        ++ finalizeDiags (some t) (runEvents evs (some t)).start_times) = _
    unfold runEvents
    rw [h.1, finalizeDiags_all_target t _ hX]
    rfl
  · intro n p hp
    exact (fold_filter_eq t ht (evs.take n) initState hinit).2 p hp
  · intro s e he
    apply stepEvent_skipped
    simp [skipsEvent, he, ht]

/-- Witness for C8: filtering for alice on a stream that also contains bob. -/
theorem filter_prematch_witness :
    calculate_work_time
        [⟨"alice", "Start", 5, "w1"⟩, ⟨"bob", "Start", 6, "w2"⟩,
         ⟨"alice", "Stop", 9, "w1"⟩] (some "alice")
      = calculate_work_time
          ([⟨"alice", "Start", 5, "w1"⟩, ⟨"bob", "Start", 6, "w2"⟩,
            ⟨"alice", "Stop", 9, "w1"⟩].filter (fun e => e.login == "alice"))
          none :=
  (filter_prematch "alice"
      [⟨"alice", "Start", 5, "w1"⟩, ⟨"bob", "Start", 6, "w2"⟩,
       ⟨"alice", "Stop", 9, "w1"⟩] (by decide)).1
